/-
Verification of the tournament lifecycle engine of the peerplays chain code
(`libraries/chain/tournament_object.cpp` and the account-impact resolver),
against its natural-language specification.

The development shallowly embeds the relevant C++ into Lean: account ids are
`Nat` (with `0` standing for the default-constructed null id), `uint32_t`
arithmetic is `Nat` arithmetic reduced modulo `2 ^ 32` where overflow can
occur, `share_type` amounts are `Int`, `flat_set` / `flat_map` are sorted
lists, and the `boost::msm` state machine is a step function on a tournament
record.  Components of the repository that are referenced but whose sources
are absent (the `match_object` state machine) are modelled from the spec and
marked as such in their doc comments.
-/
import Mathlib

namespace Peerplays


def reverse_bits (x : Nat) : Nat :=
  let x1 := ((x &&& 0xaaaaaaaa) >>> 1) ||| ((x &&& 0x55555555) <<< 1)
  let x2 := ((x1 &&& 0xcccccccc) >>> 2) ||| ((x1 &&& 0x33333333) <<< 2)
  let x3 := ((x2 &&& 0xf0f0f0f0) >>> 4) ||| ((x2 &&& 0x0f0f0f0f) <<< 4)
  let x4 := ((x3 &&& 0xff00ff00) >>> 8) ||| ((x3 &&& 0x00ff00ff) <<< 8)
  ((x4 >>> 16) ||| (x4 <<< 16)) % 4294967296

/-- The permutation of bit indices performed by the first reversal stage. -/
def bitSwap (k i : Nat) : Nat := if i % (2 * k) < k then i + k else i - k

/-- Position of a player in the first-round pairing array, from
`in_progress::on_entry`: `reverse_bits(player_num ^ (player_num >> 1)) >> (32 - num_rounds)`. -/
def player_position (num_rounds player_num : Nat) : Nat :=
  reverse_bits (player_num ^^^ (player_num >>> 1)) >>> (32 - num_rounds)

/-- Partial inverse of the reflected Gray code: XOR of the right-shifts. -/
def grayInvAux (y : Nat) : Nat → Nat
  | 0 => 0
  | n + 1 => grayInvAux y n ^^^ (y >>> n)

/-- Fuel-based floor of the base-2 logarithm (structural recursion, so that
concrete instances evaluate inside the kernel). -/
def floorLog2Aux : Nat → Nat → Nat
  | 0, _ => 0
  | fuel + 1, n => if 2 ≤ n then floorLog2Aux fuel (n / 2) + 1 else 0

/-- `boost::multiprecision::detail::find_msb`: index of the most significant
set bit of a positive integer, i.e. `⌊log2⌋`. -/
def find_msb (n : Nat) : Nat := floorLog2Aux n n

/-- Number of rounds computed in `in_progress::on_entry`:
`find_msb(num_players - 1) + 1`. -/
def num_rounds_of (num_players : Nat) : Nat := find_msb (num_players - 1) + 1

/-- Filling loop of the `paired_players` vector: players `0 .. m-1` written at
their bit-reversed Gray-code positions into a vector of
`num_matches_in_first_round * 2` null slots. -/
def pairedAux (R : Nat) (seeded : List Nat) : Nat → List Nat
  | 0 => List.replicate (2 ^ (R - 1) * 2) 0
  | m + 1 => (pairedAux R seeded m).set (player_position R m) (seeded.getD m 0)

/-- The `paired_players` array built by `in_progress::on_entry`. -/
def paired_players (R : Nat) (seeded : List Nat) : List Nat :=
  pairedAux R seeded seeded.length

/-- Match states relevant to the tournament core (spec section 3: the Match
contract). -/
inductive MState where
  | waiting_on_previous_matches
  | match_in_progress
  | match_complete
  deriving DecidableEq, Repr

/-- The fields of `match_object` that the tournament code reads and writes:
`players`, `match_winners` and the match state. -/
structure MatchO where
  players : List Nat
  match_winners : List Nat
  state : MState
  deriving DecidableEq, Repr

/-- An empty match as produced by `in_progress::create_match` with no players.
Modelled from the spec: the initial state of a freshly created match is
`waiting_on_previous_matches` (the match state machine lives in
`match_object.cpp`, which is not among the sources). -/
def create_match : MatchO :=
  { players := [], match_winners := [], state := .waiting_on_previous_matches }

/-- Modelled from the spec: `match_object::on_initiate_match`
(`match_object.cpp` is not among the sources).  Per the Match contract in the
spec, a match initiated with a single player is a bye that completes
immediately with that player as winner; a match initiated with two players
becomes a normal in-progress match. -/
def on_initiate_match (players : List Nat) : MatchO :=
  { players := players
    match_winners := if players.length = 1 then players else []
    state := if players.length = 1 then .match_complete else .match_in_progress }

/-- Players of first-round match `i`, from the loop in `in_progress::on_entry`:
`paired_players[2*i]` unconditionally, and `paired_players[2*i+1]` only when it
is not the null account id. -/
def first_round_players (paired : List Nat) (i : Nat) : List Nat :=
  [paired.getD (2 * i) 0] ++
    (if paired.getD (2 * i + 1) 0 ≠ 0 then [paired.getD (2 * i + 1) 0] else [])

/-- The match list created by `in_progress::on_entry` from the seeded player
order: `2^R - 1` empty matches, the first `2^(R-1)` of which are initiated
with the first-round pairings. -/
def in_progress_on_entry (seeded : List Nat) : List MatchO :=
  let num_players := seeded.length
  let num_rounds := num_rounds_of num_players
  let num_matches := 2 ^ num_rounds - 1
  let num_matches_in_first_round := 2 ^ (num_rounds - 1)
  let paired := paired_players num_rounds seeded
  (List.range num_matches).map fun i =>
    if i < num_matches_in_first_round then on_initiate_match (first_round_players paired i)
    else create_match

/-- `num_matches - (num_matches >> round_num)`: index of the first match of a
round in `check_for_new_matches_to_start`. -/
def first_match_in_round (num_matches round_num : Nat) : Nat :=
  num_matches - (num_matches >>> round_num)

/-- `1 << (num_rounds - round_num - 1)`: number of matches in a round. -/
def matches_in_round (num_rounds round_num : Nat) : Nat :=
  2 ^ (num_rounds - round_num - 1)

/-- Inner loop of the round scan: state of the first match in the given index
range that is not `match_complete`, or `none` when they all are. -/
def find_incomplete (ms : List MatchO) : Nat → Nat → Option MState
  | _, 0 => none
  | first, cnt + 1 =>
    let st := (ms.getD first create_match).state
    if st ≠ MState.match_complete then some st
    else find_incomplete ms (first + 1) cnt

/-- Outer loop of the round scan of `check_for_new_matches_to_start`: returns
`(last_complete_round, first_incomplete_match_was_waiting)`. -/
def scanAux (ms : List MatchO) (num_matches num_rounds : Nat) :
    Nat → Nat → Int → Bool → Int × Bool
  | 0, _, last, w => (last, w)
  | fuel + 1, round_num, last, w =>
    match find_incomplete ms (first_match_in_round num_matches round_num)
        (matches_in_round num_rounds round_num) with
    | none => scanAux ms num_matches num_rounds fuel (round_num + 1) (round_num : Int) w
    | some st => (last, decide (st = MState.waiting_on_previous_matches))

/-- The match-starting loop of `check_for_new_matches_to_start`.  Note that,
as in the source, the modified match is `matches[left_child_index]` (the
variable `match_to_start` is bound to the left child), and only its `players`
field is assigned. -/
def start_next_round (num_matches : Nat) : List MatchO → Nat → Nat → List MatchO
  | ms, _, 0 => ms
  | ms, match_num, cnt + 1 =>
    let left_child_index : Int :=
      ((num_matches : Int) - 1) - (((num_matches : Int) - 1 - (match_num : Int)) * 2 + 2)
    let right_child_index : Int := left_child_index + 1
    let left_match := ms.getD left_child_index.toNat create_match
    let right_match := ms.getD right_child_index.toNat create_match
    let winners := left_match.match_winners.take 1 ++ right_match.match_winners.take 1
    let ms2 := ms.set left_child_index.toNat { left_match with players := winners }
    start_next_round num_matches ms2 (match_num + 1) cnt

/-- `tournament_object::check_for_new_matches_to_start`. -/
def check_for_new_matches_to_start (ms : List MatchO) : List MatchO :=
  let num_matches := ms.length
  let num_rounds := find_msb (num_matches + 1)
  let scan := scanAux ms num_matches num_rounds num_rounds 0 (-1) false
  if scan.1 = -1 then ms
  else if scan.1 = (num_rounds : Int) - 1 then ms
  else if scan.2 then
    let first_incomplete_round := (scan.1 + 1).toNat
    start_next_round num_matches ms
      (first_match_in_round num_matches first_incomplete_round)
      (matches_in_round num_rounds first_incomplete_round)
  else ms

def completeWith (w : Nat) : MatchO :=
  { players := [], match_winners := [w], state := MState.match_complete }

/-- Eight-player bracket: round 0 (indices 0-3) complete with winners
101..104, rounds 1 and 2 (indices 4-6) still waiting. -/
def eightPlayerScenario : List MatchO :=
  [completeWith 101, completeWith 102, completeWith 103, completeWith 104,
   create_match, create_match, create_match]

/-- An asset amount: `(amount, asset_id)`. -/
structure AssetT where
  amount : Int
  asset_id : Nat
  deriving DecidableEq, Repr

/-- The tournament options fields read by `tournament_object.cpp`. -/
structure TOptions where
  number_of_players : Nat
  buy_in : AssetT
  start_time : Option Nat
  start_delay : Option Nat
  deriving DecidableEq, Repr

/-- `tournament_details_object`: the registered-player set and the payer map,
kept as the sorted structures `flat_set` / `flat_map` maintain. -/
structure TDetails where
  registered_players : List Nat
  payers : List (Nat × Int)
  deriving DecidableEq, Repr

/-- The five states of the tournament state machine, in the order of
`tournament_state`. -/
inductive TState where
  | accepting_registrations
  | awaiting_start
  | in_progress
  | registration_period_expired
  | concluded
  deriving DecidableEq, Repr

/-- The `tournament_object` fields the state machine reads and writes,
together with its details object. -/
structure Tournament where
  options : TOptions
  start_time : Option Nat
  prize_pool : Int
  registered_players : Nat
  details : TDetails
  state : TState

/-- The host database interface consumed by the state machine: per-account,
per-asset balances and the head block time. -/
structure DB where
  balances : Nat → Nat → Int
  head_block_time : Nat

/-- `database::adjust_balance`. -/
def adjust_balance (db : DB) (account : Nat) (a : AssetT) : DB :=
  { db with
    balances := fun acct asset =>
      if acct = account ∧ asset = a.asset_id then db.balances acct asset + a.amount
      else db.balances acct asset }

/-- `flat_map::operator[] +=`: add `v` to the entry at key `k`, inserting the
entry (with default value 0) at its sorted position if absent. -/
def flatMapAdd : List (Nat × Int) → Nat → Int → List (Nat × Int)
  | [], k, v => [(k, v)]
  | (k2, v2) :: rest, k, v =>
    if k = k2 then (k2, v2 + v) :: rest
    else if k < k2 then (k, v) :: (k2, v2) :: rest
    else (k2, v2) :: flatMapAdd rest k v

/-- `flat_set::insert`: sorted insertion without duplicates. -/
def flatSetInsert : List Nat → Nat → List Nat
  | [], x => [x]
  | y :: rest, x =>
    if x = y then y :: rest
    else if x < y then x :: y :: rest
    else y :: flatSetInsert rest x

def payersSum (ps : List (Nat × Int)) : Int := (ps.map Prod.snd).sum

def payersLookup : List (Nat × Int) → Nat → Int
  | [], _ => 0
  | (k2, v) :: rest, k => if k = k2 then v else payersLookup rest k

/-- Events delivered to the tournament state machine. -/
inductive TEvent where
  | player_registered (payer_id player_id : Nat)
  | registration_deadline_passed
  | start_time_arrived
  | final_game_completed

/-- Guard `will_be_fully_registered`: compares the two `uint32_t` values
`registered_players` and `number_of_players - 1`. -/
def will_be_fully_registered (t : Tournament) : Bool :=
  t.registered_players % 4294967296
    = (t.options.number_of_players + 4294967296 - 1) % 4294967296

/-- Action `register_player`: debit the buy-in from the payer, record the
contribution and the player, bump the counters. -/
def register_player (db : DB) (t : Tournament) (payer_id player_id : Nat) :
    DB × Tournament :=
  let db2 := adjust_balance db payer_id
    ⟨-t.options.buy_in.amount, t.options.buy_in.asset_id⟩
  let details2 : TDetails :=
    { registered_players := flatSetInsert t.details.registered_players player_id
      payers := flatMapAdd t.details.payers payer_id t.options.buy_in.amount }
  (db2,
    { t with
      details := details2
      registered_players := t.registered_players + 1
      prize_pool := t.prize_pool + t.options.buy_in.amount })

/-- `awaiting_start::on_entry`: fix the start time. -/
def awaiting_start_on_entry (db : DB) (t : Tournament) : Tournament :=
  match t.options.start_time with
  | some st => { t with start_time := some st }
  | none => { t with start_time := some (db.head_block_time + t.options.start_delay.getD 0) }

/-- `registration_period_expired::on_entry`: refund each payer its recorded
contribution in the buy-in asset. -/
def refund_payers (asset_id : Nat) : DB → List (Nat × Int) → DB
  | db, [] => db
  | db, (payer, amount) :: rest =>
    refund_payers asset_id (adjust_balance db payer ⟨amount, asset_id⟩) rest

/-- One step of the tournament state machine (`boost::msm` semantics: the
guard is evaluated on the pre-state; of the two conflicting
`player_registered` rows the one declared last in the transition table — the
guarded row targeting `awaiting_start` — is tried first; an event with no
matching row leaves the state unchanged). -/
def process_event (db : DB) (t : Tournament) : TEvent → DB × Tournament
  | .player_registered payer_id player_id =>
    match t.state with
    | .accepting_registrations =>
      let g := will_be_fully_registered t
      let r := register_player db t payer_id player_id
      if g then (r.1, awaiting_start_on_entry r.1 { r.2 with state := .awaiting_start })
      else r
    | _ => (db, t)
  | .registration_deadline_passed =>
    match t.state with
    | .accepting_registrations =>
      (refund_payers t.options.buy_in.asset_id db t.details.payers,
        { t with state := .registration_period_expired })
    | _ => (db, t)
  | .start_time_arrived =>
    match t.state with
    | .awaiting_start => (db, { t with state := .in_progress })
    | _ => (db, t)
  | .final_game_completed =>
    match t.state with
    | .in_progress => (db, { t with state := .concluded })
    | _ => (db, t)

/-- Keys of a `flat_map` are strictly increasing. -/
def keysSorted (ps : List (Nat × Int)) : Prop :=
  List.Pairwise (fun a b => a.1 < b.1) ps

/-- `get_impacted_account_visitor::operator()(tournament_join_operation)`:
insert the payer, then the player, into the running impacted set. -/
def tournament_join_impacted (s : Finset Nat) (payer_account_id player_account_id : Nat) :
    Finset Nat :=
  insert player_account_id (insert payer_account_id s)

/-- `get_impacted_account_visitor::operator()(tournament_leave_operation)`:
erase the canceling account when it differs from the player, then erase the
player.  Note these are erasures, not insertions. -/
def tournament_leave_impacted (s : Finset Nat) (canceling_account_id player_account_id : Nat) :
    Finset Nat :=
  let s2 := if canceling_account_id ≠ player_account_id
            then s.erase canceling_account_id else s
  s2.erase player_account_id

/-- A sample database for the witnesses below. -/
def sampleDB : DB := { balances := fun _ _ => 100, head_block_time := 1000 }

/-- Sample tournament options: four players, buy-in 10 of asset 0. -/
def sampleOptions : TOptions :=
  { number_of_players := 4, buy_in := { amount := 10, asset_id := 0 },
    start_time := none, start_delay := some 60 }

/-- A sample tournament with three of four players registered. -/
def sampleT3 : Tournament :=
  { options := sampleOptions, start_time := none, prize_pool := 30,
    registered_players := 3,
    details := { registered_players := [1, 2, 3],
                 payers := [(1, 10), (2, 10), (3, 10)] },
    state := TState.accepting_registrations }

/-- A sample tournament with two players registered. -/
def sampleT2 : Tournament :=
  { options := sampleOptions, start_time := none, prize_pool := 20,
    registered_players := 2,
    details := { registered_players := [1, 2],
                 payers := [(1, 10), (2, 10)] },
    state := TState.accepting_registrations }

/-- Bits of the alternating masks, verified by exhaustive evaluation below 64
and by a size bound above. -/
lemma testBit_mask_hi1 (j : Nat) :
    Nat.testBit 0xaaaaaaaa j = decide (j < 32 ∧ j % 2 = 1) := by
  by_cases h : j < 64
  · revert h; revert j; decide
  · rw [Nat.testBit_lt_two_pow, decide_eq_false]
    · omega
    · calc (0xaaaaaaaa : Nat) < 2 ^ 64 := by norm_num
        _ ≤ 2 ^ j := Nat.pow_le_pow_right (by norm_num) (by omega)

lemma testBit_mask_lo1 (j : Nat) :
    Nat.testBit 0x55555555 j = decide (j < 32 ∧ j % 2 = 0) := by
  by_cases h : j < 64
  · revert h; revert j; decide
  · rw [Nat.testBit_lt_two_pow, decide_eq_false]
    · omega
    · calc (0x55555555 : Nat) < 2 ^ 64 := by norm_num
        _ ≤ 2 ^ j := Nat.pow_le_pow_right (by norm_num) (by omega)

lemma stage_testBit1 (x i : Nat) (h : i < 32) :
    (((x &&& 0xaaaaaaaa) >>> 1) ||| ((x &&& 0x55555555) <<< 1)).testBit i
      = x.testBit (bitSwap 1 i) := by
  simp only [Nat.testBit_or, Nat.testBit_shiftRight, Nat.testBit_shiftLeft,
    Nat.testBit_and, testBit_mask_hi1, testBit_mask_lo1, bitSwap]
  rcases Nat.mod_two_eq_zero_or_one i with hp | hp
  · have h1 : (1 + i < 32 ∧ (1 + i) % 2 = 1) := by omega
    have h2 : ¬ ((i - 1) % 2 = 0) ∨ ¬ (1 ≤ i) := by omega
    rcases h2 with h2 | h2
    · simp [h1, h2, hp, Nat.add_comm 1 i]
      exact fun _ => by omega
    · simp [h1, h2, hp, Nat.add_comm 1 i]
      exact fun _ => by omega
  · have h1 : ¬ ((1 + i) % 2 = 1) := by omega
    have h2 : (i - 1 < 32 ∧ (i - 1) % 2 = 0) := by omega
    have h3 : 1 ≤ i := by omega
    simp [h1, h2, h3, hp]

lemma testBit_mask_hi2 (j : Nat) :
    Nat.testBit 0xcccccccc j = decide (j < 32 ∧ 2 ≤ j % 4) := by
  by_cases h : j < 64
  · revert h; revert j; decide
  · rw [Nat.testBit_lt_two_pow, decide_eq_false]
    · omega
    · calc (0xcccccccc : Nat) < 2 ^ 64 := by norm_num
        _ ≤ 2 ^ j := Nat.pow_le_pow_right (by norm_num) (by omega)

lemma testBit_mask_lo2 (j : Nat) :
    Nat.testBit 0x33333333 j = decide (j < 32 ∧ j % 4 < 2) := by
  by_cases h : j < 64
  · revert h; revert j; decide
  · rw [Nat.testBit_lt_two_pow, decide_eq_false]
    · omega
    · calc (0x33333333 : Nat) < 2 ^ 64 := by norm_num
        _ ≤ 2 ^ j := Nat.pow_le_pow_right (by norm_num) (by omega)

lemma stage_testBit2 (x i : Nat) (h : i < 32) :
    (((x &&& 0xcccccccc) >>> 2) ||| ((x &&& 0x33333333) <<< 2)).testBit i
      = x.testBit (bitSwap 2 i) := by
  simp only [Nat.testBit_or, Nat.testBit_shiftRight, Nat.testBit_shiftLeft,
    Nat.testBit_and, testBit_mask_hi2, testBit_mask_lo2, bitSwap]
  by_cases hc : i % 4 < 2
  · have h1 : (2 + i < 32 ∧ 2 ≤ (2 + i) % 4) := by omega
    have h2 : ¬ ((i - 2) % 4 < 2) ∨ ¬ (2 ≤ i) := by omega
    have hc' : i % (2 * 2) < 2 := by omega
    rcases h2 with h2 | h2 <;>
    · simp [h1, h2, hc', Nat.add_comm 2 i]
      exact fun _ => by omega
  · have h1 : ¬ (2 ≤ (2 + i) % 4) := by omega
    have h2 : (i - 2 < 32 ∧ (i - 2) % 4 < 2) := by omega
    have h3 : 2 ≤ i := by omega
    have hc' : ¬ (i % (2 * 2) < 2) := by omega
    simp [h1, h2, h3, hc']

lemma testBit_mask_hi4 (j : Nat) :
    Nat.testBit 0xf0f0f0f0 j = decide (j < 32 ∧ 4 ≤ j % 8) := by
  by_cases h : j < 64
  · revert h; revert j; decide
  · rw [Nat.testBit_lt_two_pow, decide_eq_false]
    · omega
    · calc (0xf0f0f0f0 : Nat) < 2 ^ 64 := by norm_num
        _ ≤ 2 ^ j := Nat.pow_le_pow_right (by norm_num) (by omega)

lemma testBit_mask_lo4 (j : Nat) :
    Nat.testBit 0x0f0f0f0f j = decide (j < 32 ∧ j % 8 < 4) := by
  by_cases h : j < 64
  · revert h; revert j; decide
  · rw [Nat.testBit_lt_two_pow, decide_eq_false]
    · omega
    · calc (0x0f0f0f0f : Nat) < 2 ^ 64 := by norm_num
        _ ≤ 2 ^ j := Nat.pow_le_pow_right (by norm_num) (by omega)

lemma stage_testBit4 (x i : Nat) (h : i < 32) :
    (((x &&& 0xf0f0f0f0) >>> 4) ||| ((x &&& 0x0f0f0f0f) <<< 4)).testBit i
      = x.testBit (bitSwap 4 i) := by
  simp only [Nat.testBit_or, Nat.testBit_shiftRight, Nat.testBit_shiftLeft,
    Nat.testBit_and, testBit_mask_hi4, testBit_mask_lo4, bitSwap]
  by_cases hc : i % 8 < 4
  · have h1 : (4 + i < 32 ∧ 4 ≤ (4 + i) % 8) := by omega
    have h2 : ¬ ((i - 4) % 8 < 4) ∨ ¬ (4 ≤ i) := by omega
    have hc' : i % (2 * 4) < 4 := by omega
    rcases h2 with h2 | h2 <;>
    · simp [h1, h2, hc', Nat.add_comm 4 i]
      exact fun _ => by omega
  · have h1 : ¬ (4 ≤ (4 + i) % 8) := by omega
    have h2 : (i - 4 < 32 ∧ (i - 4) % 8 < 4) := by omega
    have h3 : 4 ≤ i := by omega
    have hc' : ¬ (i % (2 * 4) < 4) := by omega
    simp [h1, h2, h3, hc']

lemma testBit_mask_hi8 (j : Nat) :
    Nat.testBit 0xff00ff00 j = decide (j < 32 ∧ 8 ≤ j % 16) := by
  by_cases h : j < 64
  · revert h; revert j; decide
  · rw [Nat.testBit_lt_two_pow, decide_eq_false]
    · omega
    · calc (0xff00ff00 : Nat) < 2 ^ 64 := by norm_num
        _ ≤ 2 ^ j := Nat.pow_le_pow_right (by norm_num) (by omega)

lemma testBit_mask_lo8 (j : Nat) :
    Nat.testBit 0x00ff00ff j = decide (j < 32 ∧ j % 16 < 8) := by
  by_cases h : j < 64
  · revert h; revert j; decide
  · rw [Nat.testBit_lt_two_pow, decide_eq_false]
    · omega
    · calc (0x00ff00ff : Nat) < 2 ^ 64 := by norm_num
        _ ≤ 2 ^ j := Nat.pow_le_pow_right (by norm_num) (by omega)

lemma stage_testBit8 (x i : Nat) (h : i < 32) :
    (((x &&& 0xff00ff00) >>> 8) ||| ((x &&& 0x00ff00ff) <<< 8)).testBit i
      = x.testBit (bitSwap 8 i) := by
  simp only [Nat.testBit_or, Nat.testBit_shiftRight, Nat.testBit_shiftLeft,
    Nat.testBit_and, testBit_mask_hi8, testBit_mask_lo8, bitSwap]
  by_cases hc : i % 16 < 8
  · have h1 : (8 + i < 32 ∧ 8 ≤ (8 + i) % 16) := by omega
    have h2 : ¬ ((i - 8) % 16 < 8) ∨ ¬ (8 ≤ i) := by omega
    have hc' : i % (2 * 8) < 8 := by omega
    rcases h2 with h2 | h2 <;>
    · simp [h1, h2, hc', Nat.add_comm 8 i]
      exact fun _ => by omega
  · have h1 : ¬ (8 ≤ (8 + i) % 16) := by omega
    have h2 : (i - 8 < 32 ∧ (i - 8) % 16 < 8) := by omega
    have h3 : 8 ≤ i := by omega
    have hc' : ¬ (i % (2 * 8) < 8) := by omega
    simp [h1, h2, h3, hc']

lemma stage_testBit16 (x i : Nat) (hx : x < 4294967296) (h : i < 32) :
    (((x >>> 16) ||| (x <<< 16)) % 4294967296).testBit i
      = x.testBit (bitSwap 16 i) := by
  have h32 : (4294967296 : Nat) = 2 ^ 32 := by norm_num
  rw [h32, Nat.testBit_mod_two_pow]
  simp only [Nat.testBit_or, Nat.testBit_shiftRight, Nat.testBit_shiftLeft, bitSwap]
  by_cases hc : i % 32 < 16
  · have h2 : ¬ (16 ≤ i) := by omega
    simp [h, h2, hc, Nat.add_comm 16 i]
  · have hbig : x.testBit (16 + i) = false := by
      apply Nat.testBit_lt_two_pow
      calc x < 2 ^ 32 := by omega
        _ ≤ 2 ^ (16 + i) := Nat.pow_le_pow_right (by norm_num) (by omega)
    have h3 : 16 ≤ i := by omega
    simp [h, h3, hc, hbig]

lemma stage_lt (x hi lo k : Nat) (hhi : hi < 4294967296) (hlo : lo * 2 ^ k < 4294967296) :
    (((x &&& hi) >>> k) ||| ((x &&& lo) <<< k)) < 4294967296 := by
  have h32 : (4294967296 : Nat) = 2 ^ 32 := by norm_num
  rw [h32]
  apply Nat.or_lt_two_pow
  · calc (x &&& hi) >>> k ≤ x &&& hi := by
          rw [Nat.shiftRight_eq_div_pow]; exact Nat.div_le_self _ _
      _ < 2 ^ 32 := by rw [← h32]; exact Nat.lt_of_le_of_lt (Nat.and_le_right) hhi
  · rw [Nat.shiftLeft_eq]
    calc (x &&& lo) * 2 ^ k ≤ lo * 2 ^ k :=
          Nat.mul_le_mul_right _ Nat.and_le_right
      _ < 2 ^ 32 := by rw [← h32]; exact hlo

lemma bitSwap_lt : ∀ i < 32, ∀ k < 17,
    (k = 1 ∨ k = 2 ∨ k = 4 ∨ k = 8 ∨ k = 16) → bitSwap k i < 32 := by
  decide

lemma bitSwap_compose : ∀ i < 32,
    bitSwap 1 (bitSwap 2 (bitSwap 4 (bitSwap 8 (bitSwap 16 i)))) = 31 - i := by
  decide

/-- `reverse_bits` reverses the low 32 bits. -/
lemma reverse_bits_testBit (x i : Nat) (h : i < 32) :
    (reverse_bits x).testBit i = x.testBit (31 - i) := by
  unfold reverse_bits
  have l1 : (((x &&& 0xaaaaaaaa) >>> 1) ||| ((x &&& 0x55555555) <<< 1)) < 4294967296 :=
    stage_lt _ _ _ _ (by norm_num) (by norm_num)
  have l2 : ∀ y : Nat, (((y &&& 0xcccccccc) >>> 2) ||| ((y &&& 0x33333333) <<< 2)) < 4294967296 :=
    fun y => stage_lt _ _ _ _ (by norm_num) (by norm_num)
  have l3 : ∀ y : Nat, (((y &&& 0xf0f0f0f0) >>> 4) ||| ((y &&& 0x0f0f0f0f) <<< 4)) < 4294967296 :=
    fun y => stage_lt _ _ _ _ (by norm_num) (by norm_num)
  have l4 : ∀ y : Nat, (((y &&& 0xff00ff00) >>> 8) ||| ((y &&& 0x00ff00ff) <<< 8)) < 4294967296 :=
    fun y => stage_lt _ _ _ _ (by norm_num) (by norm_num)
  have b16 : bitSwap 16 i < 32 := bitSwap_lt _ h 16 (by omega) (by omega)
  have b8 : bitSwap 8 (bitSwap 16 i) < 32 := bitSwap_lt _ b16 8 (by omega) (by omega)
  have b4 : bitSwap 4 (bitSwap 8 (bitSwap 16 i)) < 32 := bitSwap_lt _ b8 4 (by omega) (by omega)
  have b2 : bitSwap 2 (bitSwap 4 (bitSwap 8 (bitSwap 16 i))) < 32 := bitSwap_lt _ b4 2 (by omega) (by omega)
  rw [stage_testBit16 _ _ (l4 _) h]
  rw [stage_testBit8 _ _ b16]
  rw [stage_testBit4 _ _ b8]
  rw [stage_testBit2 _ _ b4]
  rw [stage_testBit1 _ _ b2]
  rw [bitSwap_compose i h]

lemma reverse_bits_lt (x : Nat) : reverse_bits x < 4294967296 := by
  unfold reverse_bits
  exact Nat.mod_lt _ (by norm_num)

lemma shiftRight_le_self (p k : Nat) : p >>> k ≤ p := by
  rw [Nat.shiftRight_eq_div_pow]; exact Nat.div_le_self _ _

lemma gray_lt {p n : Nat} (hp : p < 2 ^ n) : p ^^^ (p >>> 1) < 2 ^ n :=
  Nat.xor_lt_two_pow hp (Nat.lt_of_le_of_lt (shiftRight_le_self p 1) hp)

lemma xor_shiftRight (a b k : Nat) : (a ^^^ b) >>> k = (a >>> k) ^^^ (b >>> k) := by
  apply Nat.eq_of_testBit_eq
  intro i
  simp [Nat.testBit_shiftRight, Nat.testBit_xor]

lemma grayInvAux_gray (p : Nat) : ∀ n, grayInvAux (p ^^^ (p >>> 1)) n = p ^^^ (p >>> n) := by
  intro n
  induction n with
  | zero => simp [grayInvAux]
  | succ n ih =>
    show grayInvAux (p ^^^ (p >>> 1)) n ^^^ ((p ^^^ (p >>> 1)) >>> n) = _
    rw [ih, xor_shiftRight, ← Nat.shiftRight_add]
    rw [Nat.xor_assoc, ← Nat.xor_assoc (p >>> n), Nat.xor_self, Nat.zero_xor,
      Nat.add_comm 1 n]

lemma gray_inj {p q : Nat} (hp : p < 2 ^ 32) (hq : q < 2 ^ 32)
    (h : p ^^^ (p >>> 1) = q ^^^ (q >>> 1)) : p = q := by
  have e : ∀ r : Nat, r < 2 ^ 32 → grayInvAux (r ^^^ (r >>> 1)) 32 = r := by
    intro r hr
    rw [grayInvAux_gray]
    have : r >>> 32 = 0 := by
      rw [Nat.shiftRight_eq_div_pow]; exact Nat.div_eq_of_lt hr
    rw [this, Nat.xor_zero]
  calc p = grayInvAux (p ^^^ (p >>> 1)) 32 := (e p hp).symm
    _ = grayInvAux (q ^^^ (q >>> 1)) 32 := by rw [h]
    _ = q := e q hq

lemma player_position_lt {R : Nat} (hR : R ≤ 32) (p : Nat) :
    player_position R p < 2 ^ R := by
  unfold player_position
  rw [Nat.shiftRight_eq_div_pow]
  have h1 : reverse_bits (p ^^^ (p >>> 1)) < 2 ^ 32 := by
    have := reverse_bits_lt (p ^^^ (p >>> 1)); norm_num at this ⊢; exact this
  rw [Nat.div_lt_iff_lt_mul (Nat.two_pow_pos _), ← Nat.pow_add]
  have : R + (32 - R) = 32 := by omega
  rw [this]; exact h1

lemma player_position_testBit {R p j : Nat} (hR : R ≤ 32) (hj : j < R) :
    (player_position R p).testBit j = (p ^^^ (p >>> 1)).testBit (R - 1 - j) := by
  unfold player_position
  rw [Nat.testBit_shiftRight]
  rw [reverse_bits_testBit _ _ (by omega)]
  congr 1
  omega

lemma player_position_inj {R p q : Nat} (hR : R ≤ 32) (hp : p < 2 ^ R) (hq : q < 2 ^ R)
    (h : player_position R p = player_position R q) : p = q := by
  have hgp : p ^^^ (p >>> 1) < 2 ^ R := gray_lt hp
  have hgq : q ^^^ (q >>> 1) < 2 ^ R := gray_lt hq
  have hg : p ^^^ (p >>> 1) = q ^^^ (q >>> 1) := by
    apply Nat.eq_of_testBit_eq
    intro k
    by_cases hk : k < R
    · have hj : R - 1 - k < R := by omega
      have e1 := player_position_testBit (R := R) (p := p) hR hj
      have e2 := player_position_testBit (R := R) (p := q) hR hj
      rw [h] at e1
      have hkk : R - 1 - (R - 1 - k) = k := by omega
      rw [hkk] at e1 e2
      rw [← e1, ← e2]
    · have l1 : (p ^^^ (p >>> 1)).testBit k = false :=
        Nat.testBit_lt_two_pow (Nat.lt_of_lt_of_le hgp (Nat.pow_le_pow_right (by norm_num) (by omega)))
      have l2 : (q ^^^ (q >>> 1)).testBit k = false :=
        Nat.testBit_lt_two_pow (Nat.lt_of_lt_of_le hgq (Nat.pow_le_pow_right (by norm_num) (by omega)))
      rw [l1, l2]
  exact gray_inj (Nat.lt_of_lt_of_le hp (Nat.pow_le_pow_right (by norm_num) hR))
    (Nat.lt_of_lt_of_le hq (Nat.pow_le_pow_right (by norm_num) hR)) hg

lemma player_position_parity {R p : Nat} (hR1 : 1 ≤ R) (hR : R ≤ 32) (hp : p < 2 ^ R) :
    player_position R p % 2 = 0 ↔ p < 2 ^ (R - 1) := by
  have e0 : (player_position R p).testBit 0 = (p ^^^ (p >>> 1)).testBit (R - 1) := by
    have := player_position_testBit (R := R) (p := p) hR (j := 0) (by omega)
    simpa using this
  have e1 : (p ^^^ (p >>> 1)).testBit (R - 1) = p.testBit (R - 1) := by
    rw [Nat.testBit_xor, Nat.testBit_shiftRight]
    have : 1 + (R - 1) = R := by omega
    rw [this, Nat.testBit_lt_two_pow hp, Bool.xor_false]
  have e2 : p.testBit (R - 1) = false ↔ p < 2 ^ (R - 1) := by
    rw [Nat.testBit_to_div_mod]
    have hd : p / 2 ^ (R - 1) < 2 := by
      rw [Nat.div_lt_iff_lt_mul (Nat.two_pow_pos _)]
      calc p < 2 ^ R := hp
        _ = 2 * 2 ^ (R - 1) := by rw [← Nat.pow_succ']; congr 1; omega
    rw [Nat.mod_eq_of_lt hd]
    constructor
    · intro hdec
      have hne : ¬ (p / 2 ^ (R - 1) = 1) := by
        intro he; rw [he] at hdec; simp at hdec
      have h0 : p / 2 ^ (R - 1) = 0 := by
        revert hd hne
        generalize p / 2 ^ (R - 1) = d
        intro hd hne
        omega
      exact (Nat.div_eq_zero_iff (Nat.two_pow_pos _)).mp h0
    · intro hlt
      have : p / 2 ^ (R - 1) = 0 := Nat.div_eq_of_lt hlt
      simp [this]
  rw [← e2, ← e1, ← e0]
  rw [Nat.testBit_zero]
  constructor
  · intro hm; simp [hm]
  · intro hb
    simp at hb
    omega

lemma getD_set_self {l : List Nat} {i : Nat} {v : Nat} (h : i < l.length) :
    (l.set i v).getD i 0 = v := by
  rw [List.getD_eq_getElem?_getD, List.getElem?_set_self h]
  rfl

lemma getD_set_ne {l : List Nat} {i j : Nat} {v : Nat} (h : i ≠ j) :
    (l.set i v).getD j 0 = l.getD j 0 := by
  rw [List.getD_eq_getElem?_getD, List.getElem?_set_ne h, ← List.getD_eq_getElem?_getD]

lemma floorLog2Aux_eq_log2 : ∀ fuel n, n ≤ fuel → floorLog2Aux fuel n = Nat.log2 n := by
  intro fuel
  induction fuel with
  | zero =>
    intro n hn
    have : n = 0 := by omega
    subst this
    rw [Nat.log2]
    rfl
  | succ fuel ih =>
    intro n hn
    show (if 2 ≤ n then floorLog2Aux fuel (n / 2) + 1 else 0) = Nat.log2 n
    rw [Nat.log2]
    by_cases h : 2 ≤ n
    · have hd : n / 2 ≤ fuel := by omega
      simp only [h, if_true, ge_iff_le]
      rw [ih _ hd]
    · simp [h]

lemma find_msb_eq_log2 (n : Nat) : find_msb n = Nat.log2 n :=
  floorLog2Aux_eq_log2 n n (Nat.le_refl n)

lemma pairedAux_length (R : Nat) (seeded : List Nat) (m : Nat) :
    (pairedAux R seeded m).length = 2 ^ (R - 1) * 2 := by
  induction m with
  | zero => simp [pairedAux]
  | succ m ih => simp [pairedAux, ih]

lemma two_pow_sub_one_mul_two {R : Nat} (hR : 1 ≤ R) : 2 ^ (R - 1) * 2 = 2 ^ R := by
  rw [← Nat.pow_succ]
  congr 1
  omega

lemma pairedAux_get_pos {R : Nat} (seeded : List Nat) (hR1 : 1 ≤ R) (hR : R ≤ 32)
    (m : Nat) (hm : m ≤ 2 ^ R) :
    ∀ p < m, (pairedAux R seeded m).getD (player_position R p) 0 = seeded.getD p 0 := by
  induction m with
  | zero => intro p hp; omega
  | succ m ih =>
    intro p hp
    by_cases hpm : p = m
    · subst hpm
      show ((pairedAux R seeded p).set (player_position R p) (seeded.getD p 0)).getD _ 0 = _
      apply getD_set_self
      rw [pairedAux_length, two_pow_sub_one_mul_two hR1]
      exact player_position_lt hR p
    · have hplt : p < m := by omega
      show ((pairedAux R seeded m).set (player_position R m) (seeded.getD m 0)).getD _ 0 = _
      rw [getD_set_ne, ih (by omega) p hplt]
      intro he
      exact hpm (player_position_inj hR (by omega) (by omega) he.symm)

lemma pairedAux_get_off {R : Nat} (seeded : List Nat) (m : Nat) :
    ∀ q, (∀ p < m, player_position R p ≠ q) → (pairedAux R seeded m).getD q 0 = 0 := by
  induction m with
  | zero =>
    intro q _
    show (List.replicate (2 ^ (R - 1) * 2) 0).getD q 0 = 0
    by_cases h : q < 2 ^ (R - 1) * 2
    · rw [List.getD_eq_getElem?_getD, List.getElem?_replicate]
      simp [h]
    · rw [List.getD_eq_getElem?_getD, List.getElem?_eq_none]
      · rfl
      · simp; omega
  | succ m ih =>
    intro q hq
    show ((pairedAux R seeded m).set (player_position R m) (seeded.getD m 0)).getD q 0 = 0
    rw [getD_set_ne (hq m (by omega)), ih q (fun p hp => hq p (by omega))]

lemma num_rounds_bounds {N : Nat} (h2 : 2 ≤ N) :
    2 ^ (num_rounds_of N - 1) < N ∧ N ≤ 2 ^ num_rounds_of N := by
  have hne : N - 1 ≠ 0 := by omega
  unfold num_rounds_of
  rw [find_msb_eq_log2]
  constructor
  · have := Nat.log2_self_le hne
    simp only [Nat.add_sub_cancel]
    omega
  · have := Nat.lt_log2_self (n := N - 1)
    omega

lemma num_rounds_le_32 {N : Nat} (h2 : 2 ≤ N) (hN : N ≤ 2 ^ 32) :
    num_rounds_of N ≤ 32 := by
  have hne : N - 1 ≠ 0 := by omega
  unfold num_rounds_of
  rw [find_msb_eq_log2]
  have : Nat.log2 (N - 1) < 32 := by
    rw [Nat.log2_lt hne]
    omega
  omega

lemma num_rounds_pos (N : Nat) : 1 ≤ num_rounds_of N := by
  unfold num_rounds_of; omega

lemma paired_players_length {N : Nat} (seeded : List Nat) (hlen : seeded.length = N)
    (_h2 : 2 ≤ N) :
    (paired_players (num_rounds_of N) seeded).length = 2 ^ num_rounds_of N := by
  unfold paired_players
  rw [hlen, pairedAux_length, two_pow_sub_one_mul_two (num_rounds_pos N)]

/-- Positions of the real players inside `paired_players` are exactly the
image of `[0, N)` under `player_position`. -/
lemma paired_players_support {N : Nat} (seeded : List Nat) (hlen : seeded.length = N)
    (h2 : 2 ≤ N) (hN : N ≤ 2 ^ 32) (hnz : ∀ x ∈ seeded, x ≠ 0) :
    (Finset.range (2 ^ num_rounds_of N)).filter
        (fun q => (paired_players (num_rounds_of N) seeded).getD q 0 ≠ 0)
      = (Finset.range N).image (player_position (num_rounds_of N)) := by
  set R := num_rounds_of N with hR
  have hR1 : 1 ≤ R := num_rounds_pos N
  have hR32 : R ≤ 32 := num_rounds_le_32 h2 hN
  have hNR : N ≤ 2 ^ R := (num_rounds_bounds h2).2
  apply Finset.ext
  intro q
  simp only [Finset.mem_filter, Finset.mem_range, Finset.mem_image]
  constructor
  · rintro ⟨hq, hval⟩
    by_contra hcon
    push_neg at hcon
    apply hval
    unfold paired_players
    rw [hlen]
    apply pairedAux_get_off
    intro p hp
    exact fun he => (hcon p hp) he
  · rintro ⟨p, hp, hpq⟩
    constructor
    · rw [← hpq]; exact player_position_lt hR32 p
    · unfold paired_players
      rw [hlen, ← hpq]
      rw [pairedAux_get_pos seeded hR1 hR32 N hNR p hp]
      apply hnz
      have hp' : p < seeded.length := by omega
      rw [List.getD_eq_getElem?_getD, List.getElem?_eq_getElem hp']
      exact List.getElem_mem hp'

lemma getD_eq_getElem_of_lt (l : List Nat) {p : Nat} (hp : p < l.length) :
    l.getD p 0 = l.get ⟨p, hp⟩ := by
  rw [List.getD_eq_getElem?_getD, List.getElem?_eq_getElem hp]
  rfl

lemma getD_nodup_inj {seeded : List Nat} (hnodup : seeded.Nodup)
    {p q : Nat} (hp : p < seeded.length) (hq : q < seeded.length)
    (h : seeded.getD p 0 = seeded.getD q 0) : p = q := by
  rw [getD_eq_getElem_of_lt _ hp, getD_eq_getElem_of_lt _ hq] at h
  simpa using (hnodup.getElem_inj_iff).mp (by simpa using h)

lemma filter_even_range (M : Nat) :
    (Finset.range (2 * M)).filter (fun q => q % 2 = 0)
      = (Finset.range M).image (fun m => 2 * m) := by
  apply Finset.ext
  intro q
  simp only [Finset.mem_filter, Finset.mem_range, Finset.mem_image]
  constructor
  · rintro ⟨hq, hev⟩
    exact ⟨q / 2, by omega, by omega⟩
  · rintro ⟨m, hm, rfl⟩
    omega

lemma card_filter_even_range (M : Nat) :
    ((Finset.range (2 * M)).filter (fun q => q % 2 = 0)).card = M := by
  rw [filter_even_range, Finset.card_image_of_injective _ (fun a b => by omega),
    Finset.card_range]

/-- The first half of the seeded players land exactly on the even positions. -/
lemma player_position_evens {N : Nat} (h2 : 2 ≤ N) (hN : N ≤ 2 ^ 32) :
    (Finset.range (2 ^ (num_rounds_of N - 1))).image (player_position (num_rounds_of N))
      = (Finset.range (2 ^ num_rounds_of N)).filter (fun q => q % 2 = 0) := by
  have hR1 : 1 ≤ num_rounds_of N := num_rounds_pos N
  have hR32 : num_rounds_of N ≤ 32 := num_rounds_le_32 h2 hN
  have hpow : 2 ^ num_rounds_of N = 2 * 2 ^ (num_rounds_of N - 1) := by
    have he : num_rounds_of N - 1 + 1 = num_rounds_of N := by omega
    conv_lhs => rw [← he]
    rw [Nat.pow_succ']
  apply Finset.eq_of_subset_of_card_le
  · intro q hq
    simp only [Finset.mem_image, Finset.mem_range] at hq
    obtain ⟨p, hp, rfl⟩ := hq
    have hpR : p < 2 ^ num_rounds_of N := by omega
    simp only [Finset.mem_filter, Finset.mem_range]
    exact ⟨player_position_lt hR32 p,
      (player_position_parity hR1 hR32 hpR).mpr hp⟩
  · rw [hpow, card_filter_even_range]
    rw [Finset.card_image_of_injOn]
    · rw [Finset.card_range]
    · intro a ha b hb hab
      simp only [Finset.coe_range, Set.mem_Iio] at ha hb
      exact player_position_inj hR32 (by omega) (by omega) hab

/-- Even slots of the pairing array always hold a real player. -/
lemma paired_players_even_slot {N : Nat} (seeded : List Nat)
    (h2 : 2 ≤ N) (hN : N ≤ 2 ^ 32) (hlen : seeded.length = N)
    (hnz : ∀ x ∈ seeded, x ≠ 0) :
    ∀ i < 2 ^ (num_rounds_of N - 1),
      (paired_players (num_rounds_of N) seeded).getD (2 * i) 0 ≠ 0 := by
  have hR1 : 1 ≤ num_rounds_of N := num_rounds_pos N
  have hR32 : num_rounds_of N ≤ 32 := num_rounds_le_32 h2 hN
  have hhalf : 2 ^ (num_rounds_of N - 1) < N := (num_rounds_bounds h2).1
  have hNR : N ≤ 2 ^ num_rounds_of N := (num_rounds_bounds h2).2
  intro i hi
  have hmem : 2 * i ∈ (Finset.range (2 ^ num_rounds_of N)).filter (fun q => q % 2 = 0) := by
    simp only [Finset.mem_filter, Finset.mem_range]
    have hpow : 2 ^ num_rounds_of N = 2 * 2 ^ (num_rounds_of N - 1) := by
      have he : num_rounds_of N - 1 + 1 = num_rounds_of N := by omega
      conv_lhs => rw [← he]
      rw [Nat.pow_succ']
    omega
  rw [← player_position_evens h2 hN] at hmem
  simp only [Finset.mem_image, Finset.mem_range] at hmem
  obtain ⟨p, hp, hpq⟩ := hmem
  rw [← hpq]
  unfold paired_players
  rw [hlen, pairedAux_get_pos seeded hR1 hR32 N hNR p (by omega)]
  apply hnz
  have hp' : p < seeded.length := by omega
  rw [List.getD_eq_getElem?_getD, List.getElem?_eq_getElem hp']
  exact List.getElem_mem hp'

/-- No match created on entry to `in_progress` carries the null account id as
a player. -/
lemma on_entry_no_null_player {N : Nat} (seeded : List Nat)
    (h2 : 2 ≤ N) (hN : N ≤ 2 ^ 32) (hlen : seeded.length = N)
    (hnz : ∀ x ∈ seeded, x ≠ 0) :
    ∀ m ∈ in_progress_on_entry seeded, 0 ∉ m.players := by
  intro m hm
  unfold in_progress_on_entry at hm
  simp only [List.mem_map, List.mem_range, hlen] at hm
  obtain ⟨i, hi, rfl⟩ := hm
  by_cases hfr : i < 2 ^ (num_rounds_of N - 1)
  · simp only [hfr, if_true]
    intro hmem
    unfold on_initiate_match at hmem
    unfold first_round_players at hmem
    rcases List.mem_append.mp hmem with hl | hr
    · simp only [List.mem_singleton] at hl
      exact paired_players_even_slot seeded h2 hN hlen hnz i hfr hl.symm
    · by_cases hodd : (paired_players (num_rounds_of N) seeded).getD (2 * i + 1) 0 ≠ 0
      · rw [if_pos hodd] at hr
        simp only [List.mem_singleton] at hr
        exact hodd hr.symm
      · rw [if_neg hodd] at hr
        exact (List.not_mem_nil 0) hr
  · simp only [hfr, if_false]
    intro hmem
    unfold create_match at hmem
    exact (List.not_mem_nil 0) hmem

lemma will_be_fully_registered_iff (t : Tournament)
    (hreg : t.registered_players < 4294967296)
    (hN1 : 1 ≤ t.options.number_of_players)
    (hN2 : t.options.number_of_players ≤ 4294967296) :
    will_be_fully_registered t = true ↔
      t.registered_players + 1 = t.options.number_of_players := by
  unfold will_be_fully_registered
  rw [decide_eq_true_eq]
  omega

lemma payersSum_flatMapAdd (ps : List (Nat × Int)) (k : Nat) (v : Int) :
    payersSum (flatMapAdd ps k v) = payersSum ps + v := by
  induction ps with
  | nil => simp [flatMapAdd, payersSum]
  | cons hd rest ih =>
    rcases hd with ⟨k2, v2⟩
    unfold flatMapAdd
    by_cases h1 : k = k2
    · simp only [h1, if_true]
      simp [payersSum]
      ring
    · simp only [h1, if_false]
      by_cases h2 : k < k2
      · simp only [h2, if_true]
        simp [payersSum]
        ring
      · simp only [h2, if_false]
        simp [payersSum] at ih ⊢
        rw [ih]
        ring

lemma payersLookup_gt (ps : List (Nat × Int)) (k : Nat)
    (h : ∀ q ∈ ps, k < q.1) : payersLookup ps k = 0 := by
  induction ps with
  | nil => rfl
  | cons hd rest ih =>
    unfold payersLookup
    have hk : ¬ (k = hd.1) := by
      have := h hd (by simp)
      omega
    rcases hd with ⟨k2, v2⟩
    simp only at hk
    rw [if_neg hk]
    exact ih (fun q hq => h q (by simp [hq]))

lemma payersLookup_flatMapAdd_self (ps : List (Nat × Int)) (k : Nat) (v : Int)
    (hs : keysSorted ps) :
    payersLookup (flatMapAdd ps k v) k = payersLookup ps k + v := by
  induction ps with
  | nil => simp [flatMapAdd, payersLookup]
  | cons hd rest ih =>
    rcases hd with ⟨k2, v2⟩
    have hs2 : keysSorted rest := (List.pairwise_cons.mp hs).2
    have hgt : ∀ q ∈ rest, k2 < q.1 := (List.pairwise_cons.mp hs).1
    unfold flatMapAdd
    by_cases h1 : k = k2
    · simp only [h1, if_true]
      unfold payersLookup
      simp
    · simp only [h1, if_false]
      by_cases h2 : k < k2
      · simp only [h2, if_true]
        unfold payersLookup
        simp only [if_pos rfl, if_neg h1]
        rw [payersLookup_gt rest k (fun q hq => by have := hgt q hq; omega)]
        simp
      · simp only [h2, if_false]
        unfold payersLookup
        rw [if_neg h1, if_neg h1]
        exact ih hs2

lemma mem_flatSetInsert (s : List Nat) (x : Nat) : x ∈ flatSetInsert s x := by
  induction s with
  | nil => simp [flatSetInsert]
  | cons y rest ih =>
    unfold flatSetInsert
    by_cases h1 : x = y
    · simp [h1]
    · rw [if_neg h1]
      by_cases h2 : x < y
      · simp [h2]
      · rw [if_neg h2]
        simp [ih]

lemma refund_payers_balance_notin (asset_id : Nat) (db : DB) (ps : List (Nat × Int))
    (p a : Nat) (h : ∀ q ∈ ps, q.1 ≠ p) :
    (refund_payers asset_id db ps).balances p a = db.balances p a := by
  induction ps generalizing db with
  | nil => rfl
  | cons hd rest ih =>
    rcases hd with ⟨payer, amount⟩
    unfold refund_payers
    rw [ih _ (fun q hq => h q (by simp [hq]))]
    unfold adjust_balance
    have hne : payer ≠ p := h (payer, amount) (by simp)
    simp only
    rw [if_neg]
    intro hc
    exact hne (hc.1.symm)

lemma refund_payers_balance_mem (asset_id : Nat) (db : DB) (ps : List (Nat × Int))
    (p : Nat) (amt : Int) (hmem : (p, amt) ∈ ps)
    (hnd : (ps.map Prod.fst).Nodup) :
    (refund_payers asset_id db ps).balances p asset_id
      = db.balances p asset_id + amt := by
  induction ps generalizing db with
  | nil => cases hmem
  | cons hd rest ih =>
    rcases hd with ⟨payer, amount⟩
    simp only [List.map_cons, List.nodup_cons, List.mem_map] at hnd
    rcases List.mem_cons.mp hmem with heq | hrest
    · have hp : p = payer := congrArg Prod.fst heq
      have ha : amt = amount := congrArg Prod.snd heq
      subst hp
      subst ha
      unfold refund_payers
      rw [refund_payers_balance_notin _ _ _ _ _
        (fun q hq => fun hc => hnd.1 ⟨q, hq, hc⟩)]
      unfold adjust_balance
      simp
    · have hne : payer ≠ p := by
        intro hc
        subst hc
        exact hnd.1 ⟨(payer, amt), hrest, rfl⟩
      unfold refund_payers
      rw [ih _ hrest hnd.2]
      unfold adjust_balance
      simp only
      rw [if_neg]
      intro hc
      exact hne hc.1.symm

lemma getD_map_range {α : Type} (f : Nat → α) (n i : Nat) (d : α) (h : i < n) :
    ((List.range n).map f).getD i d = f i := by
  rw [List.getD_eq_getElem?_getD, List.getElem?_map, List.getElem?_range h]
  rfl

lemma shiftRight_two_pow_sub_one {R : Nat} (hR : 1 ≤ R) :
    (2 ^ R - 1) >>> (R - 1) = 1 := by
  rw [Nat.shiftRight_eq_div_pow]
  have hlt : 2 ^ (R - 1) < 2 ^ R := Nat.pow_lt_pow_right (by norm_num) (by omega)
  have he : R - 1 + 1 = R := by omega
  have hdouble : 2 * 2 ^ (R - 1) = 2 ^ R := by
    conv_rhs => rw [← he]
    rw [Nat.pow_succ]
    ring
  apply Nat.div_eq_of_lt_le
  · omega
  · omega

/-- C3: for every `number_of_players N ≥ 2` (`number_of_players` is a
`uint32_t`, so `N ≤ 2^32`) and every seeded order of `N` nonzero, distinct
players, the bracket builder produces an array of length `2^R` with
`R = find_msb(N-1) + 1`, in which
`paired[reverse_bits32(p XOR (p >> 1)) >> (32 - R)] = seeded[p]`, every real
player occupies exactly one position, and the remaining `2^R - N` positions
hold the null account id. -/
theorem C3_bracket_placement (N : Nat) (seeded : List Nat)
    (h2 : 2 ≤ N) (hN : N ≤ 2 ^ 32) (hlen : seeded.length = N)
    (hnodup : seeded.Nodup) (hnz : ∀ x ∈ seeded, x ≠ 0) :
    (paired_players (num_rounds_of N) seeded).length = 2 ^ num_rounds_of N ∧
    (∀ p < N,
      (paired_players (num_rounds_of N) seeded).getD
        (reverse_bits (p ^^^ (p >>> 1)) >>> (32 - num_rounds_of N)) 0 = seeded.getD p 0) ∧
    (∀ p < N, ∀ q < 2 ^ num_rounds_of N,
      (paired_players (num_rounds_of N) seeded).getD q 0 = seeded.getD p 0 →
        q = player_position (num_rounds_of N) p) ∧
    ((Finset.range (2 ^ num_rounds_of N)).filter
        (fun q => (paired_players (num_rounds_of N) seeded).getD q 0 = 0)).card
      = 2 ^ num_rounds_of N - N := by
  set R := num_rounds_of N with hRdef
  have hR1 : 1 ≤ R := num_rounds_pos N
  have hR32 : R ≤ 32 := num_rounds_le_32 h2 hN
  have hNR : N ≤ 2 ^ R := (num_rounds_bounds h2).2
  have hget : ∀ p < N,
      (paired_players R seeded).getD (player_position R p) 0 = seeded.getD p 0 := by
    intro p hp
    unfold paired_players
    rw [hlen]
    exact pairedAux_get_pos seeded hR1 hR32 N hNR p hp
  refine ⟨paired_players_length seeded hlen h2, hget, ?_, ?_⟩
  · intro p hp q hq hval
    by_cases hex : ∀ p' < N, player_position R p' ≠ q
    · exfalso
      have h0 : (paired_players R seeded).getD q 0 = 0 := by
        unfold paired_players
        rw [hlen]
        exact pairedAux_get_off seeded N q hex
      rw [h0] at hval
      have : seeded.getD p 0 ∈ seeded := by
        have hp' : p < seeded.length := by omega
        rw [List.getD_eq_getElem?_getD, List.getElem?_eq_getElem hp']
        exact List.getElem_mem hp'
      exact hnz _ this hval.symm
    · push_neg at hex
      obtain ⟨p', hp', hpq⟩ := hex
      rw [← hpq, hget p' hp'] at hval
      have : p' = p := getD_nodup_inj hnodup (by omega) (by omega) hval
      rw [← hpq, this]
  · have himg := paired_players_support seeded hlen h2 hN hnz
    have hcardimg : ((Finset.range N).image (player_position R)).card = N := by
      rw [Finset.card_image_of_injOn]
      · exact Finset.card_range N
      · intro a ha b hb hab
        simp only [Finset.coe_range, Set.mem_Iio] at ha hb
        exact player_position_inj hR32 (by omega) (by omega) hab
    have hsplit := Finset.filter_card_add_filter_neg_card_eq_card
      (s := Finset.range (2 ^ R))
      (p := fun q => (paired_players R seeded).getD q 0 = 0)
    rw [Finset.card_range] at hsplit
    have hne : ((Finset.range (2 ^ R)).filter
        (fun q => ¬ ((paired_players R seeded).getD q 0 = 0))).card = N := by
      have : ((Finset.range (2 ^ R)).filter
          (fun q => ¬ ((paired_players R seeded).getD q 0 = 0)))
          = ((Finset.range (2 ^ R)).filter
            (fun q => (paired_players R seeded).getD q 0 ≠ 0)) := by
        rfl
      rw [this, himg, hcardimg]
    omega

/-- C8: `check_for_new_matches_to_start` modifies nothing when the round scan
yields `last_complete_round = -1`, and likewise returns without modifying any
match when the scan yields `num_rounds - 1` (the asserted, supposedly
unreachable case). -/
theorem C8_scheduler_noop (ms : List MatchO)
    (h : (scanAux ms ms.length (find_msb (ms.length + 1))
            (find_msb (ms.length + 1)) 0 (-1) false).1 = -1 ∨
         (scanAux ms ms.length (find_msb (ms.length + 1))
            (find_msb (ms.length + 1)) 0 (-1) false).1
           = (find_msb (ms.length + 1) : Int) - 1) :
    check_for_new_matches_to_start ms = ms := by
  unfold check_for_new_matches_to_start
  rcases h with h | h
  · simp only [h, if_true]
  · by_cases h0 : (scanAux ms ms.length (find_msb (ms.length + 1))
        (find_msb (ms.length + 1)) 0 (-1) false).1 = -1
    · simp only [h0, if_true]
    · simp only [h0, if_false, h, if_true]
      split <;> rfl

/-- C5: from `accepting_registrations`, a `player_registered` event moves the
tournament to `awaiting_start` exactly when, before the event,
`registered_players + 1 = number_of_players`; any earlier registration leaves
the state at `accepting_registrations`, and the `register_player` action
(counter increments, payer map update, player insertion) runs in both
cases. -/
theorem C5_final_registration_transition (db : DB) (t : Tournament) (payer_id player_id : Nat)
    (hacc : t.state = TState.accepting_registrations)
    (hreg : t.registered_players < 4294967296)
    (hN1 : 1 ≤ t.options.number_of_players)
    (hN2 : t.options.number_of_players ≤ 4294967296) :
    ((process_event db t (TEvent.player_registered payer_id player_id)).2.state
        = TState.awaiting_start ↔
      t.registered_players + 1 = t.options.number_of_players) ∧
    ((process_event db t (TEvent.player_registered payer_id player_id)).2.state
        = TState.accepting_registrations ↔
      t.registered_players + 1 ≠ t.options.number_of_players) ∧
    (process_event db t (TEvent.player_registered payer_id player_id)).2.registered_players
      = t.registered_players + 1 ∧
    (process_event db t (TEvent.player_registered payer_id player_id)).2.prize_pool
      = t.prize_pool + t.options.buy_in.amount ∧
    (process_event db t (TEvent.player_registered payer_id player_id)).2.details.payers
      = flatMapAdd t.details.payers payer_id t.options.buy_in.amount ∧
    (process_event db t (TEvent.player_registered payer_id player_id)).2.details.registered_players
      = flatSetInsert t.details.registered_players player_id := by
  have hwf := will_be_fully_registered_iff t hreg hN1 hN2
  unfold process_event
  rw [hacc]
  by_cases hg : will_be_fully_registered t = true
  · have hN := hwf.mp hg
    simp only [hg, if_true]
    unfold awaiting_start_on_entry register_player
    rcases hst : t.options.start_time with _ | st <;>
      simp only [hst] <;>
      refine ⟨?_, ?_, ?_, ?_, ?_, ?_⟩ <;>
      simp [hN]
  · have hg2 : will_be_fully_registered t = false := by
      revert hg; cases will_be_fully_registered t <;> simp
    have hN : ¬ (t.registered_players + 1 = t.options.number_of_players) := by
      intro hc
      rw [← hwf] at hc
      rw [hg2] at hc
      cases hc
    simp only [hg2, Bool.false_eq_true, if_false]
    unfold register_player
    refine ⟨?_, ?_, ?_, ?_, ?_, ?_⟩ <;>
      simp [hN, hacc]

/-- C6: `prize_pool = Σ Details.payers.values` is preserved by every
state-machine event, and `register_player` adds exactly `buy_in.amount` both
to `payers[payer]` (creating the entry if absent) and to `prize_pool`, while
inserting the player into `registered_players` and incrementing the
registered-player count. -/
theorem C6_prize_pool_invariant :
    (∀ (db : DB) (t : Tournament) (e : TEvent),
      t.prize_pool = payersSum t.details.payers →
        (process_event db t e).2.prize_pool
          = payersSum (process_event db t e).2.details.payers) ∧
    (∀ (db : DB) (t : Tournament) (payer_id player_id : Nat),
      (register_player db t payer_id player_id).2.prize_pool
          = t.prize_pool + t.options.buy_in.amount ∧
      (register_player db t payer_id player_id).2.registered_players
          = t.registered_players + 1 ∧
      (register_player db t payer_id player_id).2.details.payers
          = flatMapAdd t.details.payers payer_id t.options.buy_in.amount ∧
      (keysSorted t.details.payers →
        payersLookup (register_player db t payer_id player_id).2.details.payers payer_id
          = payersLookup t.details.payers payer_id + t.options.buy_in.amount) ∧
      player_id ∈ (register_player db t payer_id player_id).2.details.registered_players) := by
  constructor
  · intro db t e hinv
    rcases e with ⟨payer_id, player_id⟩ | _ | _ | _ <;>
      rcases hstate : t.state <;>
      unfold process_event <;>
      rw [hstate] <;>
      try exact hinv
    · by_cases hg : will_be_fully_registered t
      · simp only [hg, if_true]
        unfold awaiting_start_on_entry register_player
        rcases hst : t.options.start_time with _ | st <;>
          simp only [hst] <;>
          · show t.prize_pool + t.options.buy_in.amount = payersSum (flatMapAdd _ _ _)
            rw [payersSum_flatMapAdd, hinv]
      · simp only [hg, Bool.false_eq_true, if_false]
        unfold register_player
        show t.prize_pool + t.options.buy_in.amount = payersSum (flatMapAdd _ _ _)
        rw [payersSum_flatMapAdd, hinv]
  · intro db t payer_id player_id
    unfold register_player
    refine ⟨rfl, rfl, rfl, ?_, ?_⟩
    · intro hs
      exact payersLookup_flatMapAdd_self _ _ _ hs
    · exact mem_flatSetInsert _ _

/-- C7: a `registration_deadline_passed` event in `accepting_registrations`
moves the tournament to `registration_period_expired` and credits each payer
of `Details.payers` exactly its recorded amount of the buy-in asset, with no
change to `payers` or to the registered players. -/
theorem C7_expiry_refunds (db : DB) (t : Tournament)
    (hacc : t.state = TState.accepting_registrations)
    (hnd : (t.details.payers.map Prod.fst).Nodup) :
    (process_event db t TEvent.registration_deadline_passed).2.state
        = TState.registration_period_expired ∧
    (process_event db t TEvent.registration_deadline_passed).2.details.payers
        = t.details.payers ∧
    (process_event db t TEvent.registration_deadline_passed).2.details.registered_players
        = t.details.registered_players ∧
    (process_event db t TEvent.registration_deadline_passed).2.registered_players
        = t.registered_players ∧
    (process_event db t TEvent.registration_deadline_passed).2.prize_pool
        = t.prize_pool ∧
    ∀ pa ∈ t.details.payers,
      (process_event db t TEvent.registration_deadline_passed).1.balances
          pa.1 t.options.buy_in.asset_id
        = db.balances pa.1 t.options.buy_in.asset_id + pa.2 := by
  unfold process_event
  rw [hacc]
  refine ⟨rfl, rfl, rfl, rfl, rfl, ?_⟩
  intro pa hpa
  exact refund_payers_balance_mem _ _ _ pa.1 pa.2 (by simpa using hpa) hnd

/-- C9: the account-impact resolver handles `tournament_leave_operation` by
erasing `player_account_id` from the running set and, when distinct, also
erasing `canceling_account_id`; it never inserts.  In particular a running
set `{P, Q}` produced by a join is emptied by the corresponding leave. -/
theorem C9_leave_erases_impacted :
    (∀ (s : Finset Nat) (c p : Nat),
      tournament_leave_impacted s c p ⊆ s ∧
      p ∉ tournament_leave_impacted s c p ∧
      (c ≠ p → c ∉ tournament_leave_impacted s c p)) ∧
    (∀ P Q : Nat, tournament_leave_impacted (tournament_join_impacted ∅ P Q) P Q = ∅) := by
  constructor
  · intro s c p
    unfold tournament_leave_impacted
    refine ⟨?_, Finset.not_mem_erase _ _, ?_⟩
    · by_cases h : c ≠ p
      · rw [if_pos h]
        exact (Finset.erase_subset _ _).trans (Finset.erase_subset _ _)
      · rw [if_neg h]
        exact Finset.erase_subset _ _
    · intro h
      rw [if_pos h]
      intro hc
      exact (Finset.not_mem_erase c s) (Finset.mem_of_mem_erase hc)
  · intro P Q
    unfold tournament_leave_impacted tournament_join_impacted
    by_cases h : P = Q
    · subst h
      simp
    · have h2 : P ≠ Q := h
      rw [if_pos h2]
      apply Finset.eq_empty_iff_forall_not_mem.mpr
      intro x
      simp only [Finset.mem_erase, Finset.mem_insert]
      intro hc
      rcases hc with ⟨hxQ, hxP, hx⟩
      rcases hx with h1 | h1 | h1
      · exact hxQ h1
      · exact hxP h1
      · exact Finset.not_mem_empty x h1

/-- C2 (amended): once a tournament enters `in_progress`, the match array has
length `2^R - 1` with `R = find_msb(N-1) + 1 = ⌈log2 N⌉` (witnessed by
`2^(R-1) < N ≤ 2^R`); the first-round pairings are placed at the LOWEST
indices `[0, 2^(R-1))`, the remaining matches are created empty, and the
scheduler's addressing places round 0 at index 0 and the final at index
`num_matches - 1` — not, as the claim stated, the final at index 0 with
round 0 at the highest indices. -/
theorem C2_bracket_layout_amended (N : Nat) (seeded : List Nat)
    (h2 : 2 ≤ N) (hlen : seeded.length = N) :
    (in_progress_on_entry seeded).length = 2 ^ num_rounds_of N - 1 ∧
    (2 ^ (num_rounds_of N - 1) < N ∧ N ≤ 2 ^ num_rounds_of N) ∧
    (∀ i < 2 ^ (num_rounds_of N - 1),
      (in_progress_on_entry seeded).getD i create_match
        = on_initiate_match
            (first_round_players (paired_players (num_rounds_of N) seeded) i)) ∧
    (∀ i, 2 ^ (num_rounds_of N - 1) ≤ i → i < 2 ^ num_rounds_of N - 1 →
      (in_progress_on_entry seeded).getD i create_match = create_match) ∧
    first_match_in_round (2 ^ num_rounds_of N - 1) 0 = 0 ∧
    matches_in_round (num_rounds_of N) 0 = 2 ^ (num_rounds_of N - 1) ∧
    first_match_in_round (2 ^ num_rounds_of N - 1) (num_rounds_of N - 1)
      = 2 ^ num_rounds_of N - 2 ∧
    matches_in_round (num_rounds_of N) (num_rounds_of N - 1) = 1 := by
  have hR1 : 1 ≤ num_rounds_of N := num_rounds_pos N
  have hfr_lt : 2 ^ (num_rounds_of N - 1) < 2 ^ num_rounds_of N :=
    Nat.pow_lt_pow_right (by norm_num) (by omega)
  refine ⟨?_, ⟨(num_rounds_bounds h2).1, (num_rounds_bounds h2).2⟩, ?_, ?_, ?_, ?_, ?_, ?_⟩
  · unfold in_progress_on_entry
    simp [hlen]
  · intro i hi
    unfold in_progress_on_entry
    simp only [hlen]
    rw [getD_map_range _ _ _ _ (by omega)]
    rw [if_pos hi]
  · intro i hlo hhi
    unfold in_progress_on_entry
    simp only [hlen]
    rw [getD_map_range _ _ _ _ (by omega)]
    rw [if_neg (by omega)]
  · unfold first_match_in_round
    simp
  · unfold matches_in_round
    simp
  · unfold first_match_in_round
    rw [shiftRight_two_pow_sub_one hR1]
    omega
  · unfold matches_in_round
    have : num_rounds_of N - (num_rounds_of N - 1) - 1 = 0 := by omega
    rw [this, Nat.pow_zero]

/-- C2 counterexample: for `N = 4` (so `R = 2`, `num_matches = 3`) the claim
puts the first-round pairings at the highest indices `[1, 3)` and the final
at index 0; but the code initiates the pairings at indices 0 and 1 and leaves
index 2 — inside the claimed first-round range — empty, while index 0 (the
claimed final slot) holds a two-player pairing. -/
theorem C2_counterexample :
    (in_progress_on_entry [1, 2, 3, 4]).length = 3 ∧
    ((in_progress_on_entry [1, 2, 3, 4]).getD 2 create_match).players = [] ∧
    ((in_progress_on_entry [1, 2, 3, 4]).getD 0 create_match).players = [1, 4] ∧
    ((in_progress_on_entry [1, 2, 3, 4]).getD 1 create_match).players = [2, 3] := by
  decide

/-- C4 counterexample: for seeded `[X, Y, Z] = [1, 2, 3]` the Gray-code
placement computed by the code is `{0 : X, 2 : Y, 3 : Z}` (pairing array
`[1, 0, 2, 3]`), not the claimed `{0 : X, 2 : Y, 1 : Z}` (`[1, 3, 2, 0]`);
consequently the first-round matches are `(X vs bye)` and `(Y vs Z)`, not the
claimed `(X vs Z)` and `(Y vs bye)`. -/
theorem C4_counterexample :
    paired_players 2 [1, 2, 3] = [1, 0, 2, 3] ∧
    paired_players 2 [1, 2, 3] ≠ [1, 3, 2, 0] ∧
    in_progress_on_entry [1, 2, 3]
      ≠ [on_initiate_match [1, 3], on_initiate_match [2], create_match] ∧
    (in_progress_on_entry [1, 2, 3]).map MatchO.players = [[1], [2, 3], []] := by
  decide

/-- C4 (amended): for `N = 3` with seeded order `[X, Y, Z]`, the pairing
array has length 4 and the Gray-reflect-reverse mapping places `X` at
position 0, `Y` at position 2 and `Z` at position 3, with position 1 the bye;
the two first-round matches are `(X vs a bye)` — which completes immediately
with `X` as winner — and `(Y vs Z)`. -/
theorem C4_pairing_n3_amended (X Y Z : Nat) (hZ : Z ≠ 0) :
    paired_players 2 [X, Y, Z] = [X, 0, Y, Z] ∧
    in_progress_on_entry [X, Y, Z]
      = [on_initiate_match [X], on_initiate_match [Y, Z], create_match] ∧
    on_initiate_match [X]
      = { players := [X], match_winners := [X], state := MState.match_complete } ∧
    on_initiate_match [Y, Z]
      = { players := [Y, Z], match_winners := [], state := MState.match_in_progress } := by
  have hlen3 : ([X, Y, Z] : List Nat).length = 3 := rfl
  have hnr : num_rounds_of 3 = 2 := rfl
  have hr3 : List.range 3 = [0, 1, 2] := rfl
  have hpaired : paired_players 2 [X, Y, Z] = [X, 0, Y, Z] := by
    simp only [paired_players, hlen3]
    rfl
  refine ⟨hpaired, ?_, rfl, rfl⟩
  simp only [in_progress_on_entry, hlen3, hnr]
  norm_num [hr3]
  rw [hpaired]
  simp only [first_round_players]
  norm_num [List.getD_cons_zero, List.getD_cons_succ]
  rw [if_neg hZ]

/-- C1: the spec says one call to `check_for_new_matches_to_start`, with all
of round `L` complete and round `L+1` waiting, populates every round-`L+1`
match's `players` with the winners of its two children and modifies nothing
outside round `L+1`.  The code instead binds `match_to_start` to
`matches[left_child_index]`, so the winner lists are written into the LEFT
CHILDREN (round-`L` matches 0 and 2 here) and the round-`L+1` matches
(indices 4 and 5) stay empty: evaluation of the embedded code on an
eight-player bracket whose round 0 is complete with winners 101..104. -/
theorem C1_check_writes_left_child :
    check_for_new_matches_to_start eightPlayerScenario
      = [{ players := [101, 102], match_winners := [101], state := MState.match_complete },
         completeWith 102,
         { players := [103, 104], match_winners := [103], state := MState.match_complete },
         completeWith 104,
         create_match, create_match, create_match] ∧
    ((check_for_new_matches_to_start eightPlayerScenario).getD 4 create_match).players = [] ∧
    ((check_for_new_matches_to_start eightPlayerScenario).getD 5 create_match).players = [] ∧
    ((check_for_new_matches_to_start eightPlayerScenario).getD 0 create_match).players
      = [101, 102] ∧
    ((check_for_new_matches_to_start eightPlayerScenario).getD 2 create_match).players
      = [103, 104] := by
  decide

/-- C10: the Gray-reflect-reverse placement sends players `0 .. 2^(R-1) - 1`
exactly onto the even positions of the pairing array, so the even slot of
every first-round pair holds a real player and a bye can only occupy the odd
slot; hence the match-initiation loop never passes the null account id as a
match player. -/
theorem C10_even_positions_no_null (N : Nat) (seeded : List Nat)
    (h2 : 2 ≤ N) (hN : N ≤ 2 ^ 32) (hlen : seeded.length = N)
    (hnz : ∀ x ∈ seeded, x ≠ 0) :
    ((Finset.range (2 ^ (num_rounds_of N - 1))).image (player_position (num_rounds_of N))
        = (Finset.range (2 ^ num_rounds_of N)).filter (fun q => q % 2 = 0)) ∧
    (∀ i < 2 ^ (num_rounds_of N - 1),
        (paired_players (num_rounds_of N) seeded).getD (2 * i) 0 ≠ 0) ∧
    (∀ m ∈ in_progress_on_entry seeded, 0 ∉ m.players) :=
  ⟨player_position_evens h2 hN,
   paired_players_even_slot seeded h2 hN hlen hnz,
   on_entry_no_null_player seeded h2 hN hlen hnz⟩

/-- Witness for C2 (amended) at `N = 4`, seeded `[1, 2, 3, 4]`. -/
theorem C2_witness :
    (2 ≤ 4 ∧ ([1, 2, 3, 4] : List Nat).length = 4) ∧
    ((in_progress_on_entry [1, 2, 3, 4]).length = 2 ^ num_rounds_of 4 - 1 ∧
     (2 ^ (num_rounds_of 4 - 1) < 4 ∧ 4 ≤ 2 ^ num_rounds_of 4) ∧
     (∀ i < 2 ^ (num_rounds_of 4 - 1),
       (in_progress_on_entry [1, 2, 3, 4]).getD i create_match
         = on_initiate_match
             (first_round_players (paired_players (num_rounds_of 4) [1, 2, 3, 4]) i)) ∧
     (∀ i, 2 ^ (num_rounds_of 4 - 1) ≤ i → i < 2 ^ num_rounds_of 4 - 1 →
       (in_progress_on_entry [1, 2, 3, 4]).getD i create_match = create_match) ∧
     first_match_in_round (2 ^ num_rounds_of 4 - 1) 0 = 0 ∧
     matches_in_round (num_rounds_of 4) 0 = 2 ^ (num_rounds_of 4 - 1) ∧
     first_match_in_round (2 ^ num_rounds_of 4 - 1) (num_rounds_of 4 - 1)
       = 2 ^ num_rounds_of 4 - 2 ∧
     matches_in_round (num_rounds_of 4) (num_rounds_of 4 - 1) = 1) :=
  ⟨⟨by norm_num, rfl⟩, C2_bracket_layout_amended 4 [1, 2, 3, 4] (by norm_num) rfl⟩

/-- Witness for C3 at `N = 3`, seeded `[1, 2, 3]`. -/
theorem C3_witness :
    (2 ≤ 3 ∧ (3 : Nat) ≤ 2 ^ 32 ∧ ([1, 2, 3] : List Nat).length = 3 ∧
     ([1, 2, 3] : List Nat).Nodup ∧ (∀ x ∈ ([1, 2, 3] : List Nat), x ≠ 0)) ∧
    ((paired_players (num_rounds_of 3) [1, 2, 3]).length = 2 ^ num_rounds_of 3 ∧
     (∀ p < 3,
       (paired_players (num_rounds_of 3) [1, 2, 3]).getD
         (reverse_bits (p ^^^ (p >>> 1)) >>> (32 - num_rounds_of 3)) 0
         = ([1, 2, 3] : List Nat).getD p 0) ∧
     (∀ p < 3, ∀ q < 2 ^ num_rounds_of 3,
       (paired_players (num_rounds_of 3) [1, 2, 3]).getD q 0
           = ([1, 2, 3] : List Nat).getD p 0 →
         q = player_position (num_rounds_of 3) p) ∧
     ((Finset.range (2 ^ num_rounds_of 3)).filter
         (fun q => (paired_players (num_rounds_of 3) [1, 2, 3]).getD q 0 = 0)).card
       = 2 ^ num_rounds_of 3 - 3) :=
  ⟨⟨by norm_num, by norm_num, rfl, by decide, by decide⟩,
   C3_bracket_placement 3 [1, 2, 3] (by norm_num) (by norm_num) rfl (by decide) (by decide)⟩

/-- Witness for C4 (amended) at `X = 1`, `Y = 2`, `Z = 3`. -/
theorem C4_witness :
    ((3 : Nat) ≠ 0) ∧
    (paired_players 2 [1, 2, 3] = [1, 0, 2, 3] ∧
     in_progress_on_entry [1, 2, 3]
       = [on_initiate_match [1], on_initiate_match [2, 3], create_match] ∧
     on_initiate_match [1]
       = { players := [1], match_winners := [1], state := MState.match_complete } ∧
     on_initiate_match [2, 3]
       = { players := [2, 3], match_winners := [], state := MState.match_in_progress }) :=
  ⟨by norm_num, C4_pairing_n3_amended 1 2 3 (by norm_num)⟩

/-- Witness for C5: fourth registration of `sampleT3`. -/
theorem C5_witness :
    (sampleT3.state = TState.accepting_registrations ∧
     sampleT3.registered_players < 4294967296 ∧
     1 ≤ sampleT3.options.number_of_players ∧
     sampleT3.options.number_of_players ≤ 4294967296) ∧
    (((process_event sampleDB sampleT3 (TEvent.player_registered 4 4)).2.state
        = TState.awaiting_start ↔
      sampleT3.registered_players + 1 = sampleT3.options.number_of_players) ∧
    ((process_event sampleDB sampleT3 (TEvent.player_registered 4 4)).2.state
        = TState.accepting_registrations ↔
      sampleT3.registered_players + 1 ≠ sampleT3.options.number_of_players) ∧
    (process_event sampleDB sampleT3 (TEvent.player_registered 4 4)).2.registered_players
      = sampleT3.registered_players + 1 ∧
    (process_event sampleDB sampleT3 (TEvent.player_registered 4 4)).2.prize_pool
      = sampleT3.prize_pool + sampleT3.options.buy_in.amount ∧
    (process_event sampleDB sampleT3 (TEvent.player_registered 4 4)).2.details.payers
      = flatMapAdd sampleT3.details.payers 4 sampleT3.options.buy_in.amount ∧
    (process_event sampleDB sampleT3 (TEvent.player_registered 4 4)).2.details.registered_players
      = flatSetInsert sampleT3.details.registered_players 4) :=
  ⟨⟨rfl, by decide, by decide, by decide⟩,
   C5_final_registration_transition sampleDB sampleT3 4 4 rfl (by decide) (by decide) (by decide)⟩

/-- Witness for C6 at `sampleT3`. -/
theorem C6_witness :
    (sampleT3.prize_pool = payersSum sampleT3.details.payers ∧
     keysSorted sampleT3.details.payers) ∧
    ((process_event sampleDB sampleT3 (TEvent.player_registered 4 4)).2.prize_pool
        = payersSum
            (process_event sampleDB sampleT3 (TEvent.player_registered 4 4)).2.details.payers ∧
     payersLookup (register_player sampleDB sampleT3 4 4).2.details.payers 4
        = payersLookup sampleT3.details.payers 4 + sampleT3.options.buy_in.amount ∧
     4 ∈ (register_player sampleDB sampleT3 4 4).2.details.registered_players) :=
  ⟨⟨by decide, by unfold keysSorted; decide⟩,
   C6_prize_pool_invariant.1 sampleDB sampleT3 (TEvent.player_registered 4 4) (by decide),
   (C6_prize_pool_invariant.2 sampleDB sampleT3 4 4).2.2.2.1 (by unfold keysSorted; decide),
   (C6_prize_pool_invariant.2 sampleDB sampleT3 4 4).2.2.2.2⟩

/-- Witness for C7 at `sampleT2` (two payers of 10 each). -/
theorem C7_witness :
    (sampleT2.state = TState.accepting_registrations ∧
     (sampleT2.details.payers.map Prod.fst).Nodup) ∧
    ((process_event sampleDB sampleT2 TEvent.registration_deadline_passed).2.state
        = TState.registration_period_expired ∧
     (process_event sampleDB sampleT2 TEvent.registration_deadline_passed).2.details.payers
        = sampleT2.details.payers ∧
     (process_event sampleDB sampleT2 TEvent.registration_deadline_passed).2.details.registered_players
        = sampleT2.details.registered_players ∧
     (process_event sampleDB sampleT2 TEvent.registration_deadline_passed).2.registered_players
        = sampleT2.registered_players ∧
     (process_event sampleDB sampleT2 TEvent.registration_deadline_passed).2.prize_pool
        = sampleT2.prize_pool ∧
     ∀ pa ∈ sampleT2.details.payers,
       (process_event sampleDB sampleT2 TEvent.registration_deadline_passed).1.balances
           pa.1 sampleT2.options.buy_in.asset_id
         = sampleDB.balances pa.1 sampleT2.options.buy_in.asset_id + pa.2) :=
  ⟨⟨rfl, by decide⟩, C7_expiry_refunds sampleDB sampleT2 rfl (by decide)⟩

/-- Witness for C8: a single still-waiting match; the scan yields `-1` and the
call changes nothing. -/
theorem C8_witness :
    ((scanAux [create_match] (List.length [create_match])
        (find_msb (List.length [create_match] + 1))
        (find_msb (List.length [create_match] + 1)) 0 (-1) false).1 = -1 ∨
     (scanAux [create_match] (List.length [create_match])
        (find_msb (List.length [create_match] + 1))
        (find_msb (List.length [create_match] + 1)) 0 (-1) false).1
       = (find_msb (List.length [create_match] + 1) : Int) - 1) ∧
    check_for_new_matches_to_start [create_match] = [create_match] :=
  ⟨Or.inl (by decide), C8_scheduler_noop [create_match] (Or.inl (by decide))⟩

/-- Witness for C9: the join-then-leave scenario `{P, Q} = {1, 2}` plus the
erasure properties at a concrete set. -/
theorem C9_witness :
    (tournament_leave_impacted ({5} : Finset Nat) 3 4 ⊆ ({5} : Finset Nat) ∧
     4 ∉ tournament_leave_impacted ({5} : Finset Nat) 3 4 ∧
     ((3 : Nat) ≠ 4 → 3 ∉ tournament_leave_impacted ({5} : Finset Nat) 3 4)) ∧
    tournament_leave_impacted (tournament_join_impacted ∅ 1 2) 1 2 = ∅ :=
  ⟨C9_leave_erases_impacted.1 ({5} : Finset Nat) 3 4, C9_leave_erases_impacted.2 1 2⟩

/-- Witness for C10 at `N = 3`, seeded `[1, 2, 3]`. -/
theorem C10_witness :
    (2 ≤ 3 ∧ (3 : Nat) ≤ 2 ^ 32 ∧ ([1, 2, 3] : List Nat).length = 3 ∧
     (∀ x ∈ ([1, 2, 3] : List Nat), x ≠ 0)) ∧
    (((Finset.range (2 ^ (num_rounds_of 3 - 1))).image (player_position (num_rounds_of 3))
        = (Finset.range (2 ^ num_rounds_of 3)).filter (fun q => q % 2 = 0)) ∧
     (∀ i < 2 ^ (num_rounds_of 3 - 1),
        (paired_players (num_rounds_of 3) [1, 2, 3]).getD (2 * i) 0 ≠ 0) ∧
     (∀ m ∈ in_progress_on_entry [1, 2, 3], 0 ∉ m.players)) :=
  ⟨⟨by norm_num, by norm_num, rfl, by decide⟩,
   C10_even_positions_no_null 3 [1, 2, 3] (by norm_num) (by norm_num) rfl (by decide)⟩

end Peerplays
